import Mathlib

/-
Verification of the residue-numbering reconciliation and interval-algebra
subsystem of the disobind repository (src/dataset/utility.py).

The embedding models Python scalars in the Position Token domain of the
data model: a concrete integer residue position (Python int, an exact
float, or a canonical decimal-integer string), the literal string "null",
or a NaN missing sentinel.  The Python cast str(int(float(x))) is exact
on this domain (residue positions are far below 2^53), and is modelled by
the exact integer cast; non-integer numeric literals (float or exponent
literals, magnitudes at or above 2^53) lie outside the modelled domain.
-/

namespace Disobind

/-- A Python scalar in the Position Token domain: an integer, a string,
or the NaN missing sentinel. -/
inductive Scalar where
  | int : Int → Scalar
  | str : String → Scalar
  | nan : Scalar
deriving DecidableEq

/-- Keep only decimal digit characters of a character list; models the
digit-stripping fallback loop of convert_to_str. -/
def stripNonDigits (s : String) : String :=
  String.mk (s.data.filter (fun c => c.isDigit))

/-- Parse a decimal integer with optional leading minus sign; models
Python int() on canonical integer literals (its extra allowances such as
surrounding whitespace, a plus sign or underscores are outside the
modelled domain). -/
def digitsToNat : List Char → Nat → Option Nat
  | [], acc => some acc
  | c :: t, acc => if c.isDigit then digitsToNat t (acc * 10 + (c.toNat - 48)) else none

/-- Integer parse of a string, none when the string is not a canonical
signed decimal literal. -/
def pyInt? (s : String) : Option Int :=
  match s.data with
  | [] => none
  | '-' :: t =>
    match t with
    | [] => none
    | _ => (digitsToNat t 0).map (fun n => -(n : Int))
  | l => (digitsToNat l 0).map (fun n => (n : Int))

/-- Models the body str(int(float(s))) of convert_to_str with its
digit-stripping except fallback: the numeric cast is exact on the
modelled domain of canonical integer literals. -/
def pyNumCast (s : String) : String :=
  match pyInt? s with
  | some n => toString n
  | none => stripNonDigits s

/-- One element of convert_to_str: NaN and the literal "null" become the
caller marker add, an integer becomes its decimal string, any other
string goes through the numeric cast with digit-strip fallback. -/
def convert_elem (add : String) : Scalar → String
  | .nan => add
  | .str s => if s = "null" then add else pyNumCast s
  | .int n => toString n

/-- convert_to_str from src/dataset/utility.py: normalize a scalar list
to a same-length list of string tokens. -/
def convert_to_str (plist : List Scalar) (add : String) : List String :=
  plist.map (convert_elem add)

deriving instance DecidableEq for Except

/-- Left-to-right effectful map over a list in the Except monad, spelled
out recursively: the error of the first failing element propagates, as a
Python loop of appends raising an exception does. -/
def mapExcept {α β ε : Type} (f : α → Except ε β) : List α → Except ε (List β)
  | [] => .ok []
  | a :: t =>
    match f a with
    | .error e => .error e
    | .ok b =>
      match mapExcept f t with
      | .error e => .error e
      | .ok bs => .ok (b :: bs)

/-- Python list.index as an option: index of the first occurrence of a
value, none when absent (where Python raises ValueError). -/
def pyIndex : List String → String → Option Nat
  | [], _ => none
  | x :: t, v => if x = v then some 0 else (pyIndex t v).map (· + 1)

/- ------------------------------------------------------------------
Interval merger: merge_overlapping_tuples (utility.py lines 790-841).
The Python function sorts the list, then iterates over the live list
with enumerate while the inner loop iterates over a slice snapshot of
the tail and removes merged elements from the live list in place.  The
embedding reproduces that control flow exactly: the outer loop keeps an
index into the live list, the inner loop folds over the snapshot taken
at outer-iteration entry, and removal drops the first occurrence of the
value, as Python list.remove does.
------------------------------------------------------------------ -/

/-- Python list.remove: drop the first occurrence of a value (identity
when the value is absent; the source never calls it on an absent value). -/
def removeFirst : List (Int × Int) → (Int × Int) → List (Int × Int)
  | [], _ => []
  | a :: t, y => if a = y then t else a :: removeFirst t y

/-- Lexicographic order on integer pairs used by Python sorted on a list
of 2-tuples. -/
def tupLe (a b : Int × Int) : Prop :=
  a.1 < b.1 ∨ (a.1 = b.1 ∧ a.2 ≤ b.2)

instance : DecidableRel tupLe := fun a b => by
  unfold tupLe; exact inferInstance

instance : IsTotal (Int × Int) tupLe := by
  constructor; intro a b; unfold tupLe; omega

instance : IsTrans (Int × Int) tupLe := by
  constructor; intro a b c; unfold tupLe; omega

instance : IsAntisymm (Int × Int) tupLe := by
  constructor
  intro a b hab hba
  unfold tupLe at hab hba
  have h1 : a.1 = b.1 := by omega
  have h2 : a.2 = b.2 := by omega
  exact Prod.ext h1 h2

/-- Python sorted on a list of integer pairs: the unique tupLe-sorted
permutation of the input. -/
def pySort (l : List (Int × Int)) : List (Int × Int) :=
  List.insertionSort tupLe l

/-- Inner loop body of merge_overlapping_tuples over one snapshot element
y, acting on the state (live list, x1, x2); x is the fixed outer element,
whose original bounds the first branch consults, exactly as the source
writes min( x[0], y[0] ), max( x[1], y[1] ). -/
def mergeInner (x : Int × Int) (st : List (Int × Int) × Int × Int) (y : Int × Int) :
    List (Int × Int) × Int × Int :=
  let L := st.1
  let x1 := st.2.1
  let x2 := st.2.2
  let y1 := y.1
  let y2 := y.2
  if (y2 - x1).natAbs = 1 ∨ (x2 - y1).natAbs = 1 then
    (removeFirst L y, min x.1 y.1, max x.2 y.2)
  else if x1 > y2 ∨ x2 < y1 then
    (L, x1, x2)
  else if x1 ≤ y1 ∧ x2 ≤ y2 then
    (removeFirst L y, x1, y2)
  else if x1 ≤ y1 ∧ x2 ≥ y2 then
    (removeFirst L y, x1, x2)
  else if x1 ≥ y1 ∧ x2 ≥ y2 then
    (removeFirst L y, y1, x2)
  else if x1 ≥ y1 ∧ x2 ≤ y2 then
    (removeFirst L y, y1, y2)
  else (L, x1, x2)

/-- Outer loop of merge_overlapping_tuples: i is the internal index of
the Python for over the live list L; each iteration takes the snapshot
L[i+1:], folds the inner body over it, and appends the resulting bounds.
The fuel starts at the initial length, which bounds the iteration count
since the live list never grows. -/
def mergeOuter : Nat → List (Int × Int) → Nat → List (Int × Int) → List (Int × Int)
  | 0, _, _, acc => acc
  | fuel + 1, L, i, acc =>
    if h : i < L.length then
      let x := L.get ⟨i, h⟩
      let st := (L.drop (i + 1)).foldl (mergeInner x) (L, x.1, x.2)
      mergeOuter fuel st.1 (i + 1) (acc ++ [(st.2.1, st.2.2)])
    else acc

/-- merge_overlapping_tuples from src/dataset/utility.py. -/
def merge_overlapping_tuples (disorder_regions : List (Int × Int)) : List (Int × Int) :=
  let sortedRegions := pySort disorder_regions
  mergeOuter sortedRegions.length sortedRegions 0 []

/-- Whether an integer point is covered by some closed interval of the
list. -/
def coversB (l : List (Int × Int)) (n : Int) : Bool :=
  l.any (fun p => p.1 ≤ n ∧ n ≤ p.2)

-- Validation of the embedding against the test cases recorded in the
-- source comments below merge_overlapping_tuples.
example : merge_overlapping_tuples [(1,2), (5,10), (15,25)] = [(1,2), (5,10), (15,25)] := by decide
example : merge_overlapping_tuples [(1,2), (5,10), (8,25)] = [(1,2), (5,25)] := by decide
example : merge_overlapping_tuples [(1,2), (5,10), (8,25), (26,34)] = [(1,2), (5,34)] := by decide
example : merge_overlapping_tuples [(1,2), (5,10), (8,25), (26,34), (10,20), (32,37)]
    = [(1,2), (5,37)] := by decide
example : merge_overlapping_tuples [(1,2), (5,10), (8,25), (26,34), (1,20), (32,37)]
    = [(1,37)] := by decide

/- ------------------------------------------------------------------
Basis converter: change_basis and change_basis2 (utility.py 971-1068).
------------------------------------------------------------------ -/

/-- One loop iteration of change_basis on a normalized target token: a
token equal to the literal "null" propagates, otherwise the token is
looked up in the source stream and the destination stream is read at the
found index; a failed lookup is the Python ValueError, an out-of-range
read the Python IndexError. -/
def cb_step (uni pdb : List String) (forward : Bool) (t : String) : Except String String :=
  if t = "null" then .ok "null"
  else if forward = false then
    match pyIndex uni t with
    | some idx =>
      match pdb[idx]? with
      | some v => .ok v
      | none => .error "IndexError"
    | none => .error "ValueError"
  else
    match pyIndex pdb t with
    | some idx =>
      match uni[idx]? with
      | some v => .ok v
      | none => .error "IndexError"
    | none => .error "ValueError"

/-- change_basis from src/dataset/utility.py: normalize the two mapping
streams with marker "null" and the target with the caller marker, then
translate the target tokens one by one. -/
def change_basis (mapped_uni_pos mapped_pdb_pos target_pos : List Scalar)
    (add : String) (forward : Bool) : Except String (List String) :=
  let uni := convert_to_str mapped_uni_pos "null"
  let pdb := convert_to_str mapped_pdb_pos "null"
  let tgt := convert_to_str target_pos add
  mapExcept (cb_step uni pdb forward) tgt

/-- Error kinds of change_basis2: the explicit invalid-position raise,
and the Python IndexError of an out-of-range mapping subscript. -/
inductive CBErr where
  | invalidPos
  | indexErr
deriving DecidableEq

/-- One loop iteration of change_basis2: the subscript mapping[idx],
raising the Python IndexError when out of range. -/
def idx_step (m : List String) (idx : Nat) : Except CBErr String :=
  match m[idx]? with
  | some v => .ok v
  | none => .error .indexErr

/-- change_basis2 from src/dataset/utility.py: normalize mapping and
target, raise when the literal "null" remains in the normalized target,
else read the normalized mapping at each index of the index list. -/
def change_basis2 (mapping target_pos : List Scalar) (indices : List Nat)
    (add : String) : Except CBErr (List String) :=
  let m := convert_to_str mapping "null"
  let t := convert_to_str target_pos add
  if "null" ∈ t then .error .invalidPos
  else mapExcept (idx_step m) indices

-- Validation against the first commented test case below change_basis2
-- in the source (all-integer mapping, identity index list).
example :
    change_basis2 [.int 8, .int 9, .int 10, .int 11]
      [.int 1] [0, 1, 2, 3] "null" = .ok ["8", "9", "10", "11"] := by decide

/- ------------------------------------------------------------------
add_residue_positions (utility.py 1096-1124).
------------------------------------------------------------------ -/

/-- add_residue_positions from src/dataset/utility.py: walk the query
positions, emitting the position itself when present in the target and
otherwise the filler (the string "null" when add_null, else the position),
then check the impossible length divergence the source guards against. -/
def add_residue_positions (query_pos : List Int) (target_pos : List Scalar)
    (add_null : Bool) : Except String (List Scalar) :=
  let positions := query_pos.foldl (fun acc pos =>
    let add := if add_null then Scalar.str "null" else Scalar.int pos
    if (Scalar.int pos) ∈ target_pos then acc ++ [Scalar.int pos]
    else acc ++ [add]) ([] : List Scalar)
  if positions.length ≠ query_pos.length then
    .error "Excessive residues added to the target..."
  else .ok positions

/- ------------------------------------------------------------------
Interval extractor: ranges (utility.py 1240-1260).
------------------------------------------------------------------ -/

/-- Consume a flat edge list two at a time, as the Python
list(zip(it, it)) over a single iterator does. -/
def pairUp : List Int → List (Int × Int)
  | a :: b :: t => (a, b) :: pairUp t
  | _ => []

/-- Python sorted(set(positions)): ascending list of the distinct
values. -/
def dedupSort (positions : List Int) : List Int :=
  (List.insertionSort (fun a b : Int => a ≤ b) positions).dedup

/-- The flattened gap-boundary list sum( gaps, [] ) of ranges: for each
adjacent sorted pair with a hole between them, its two endpoints. -/
def gapsJoin (ps : List Int) : List Int :=
  (((ps.zip ps.tail).filter (fun p => p.1 + 1 < p.2)).map
    (fun p => [p.1, p.2])).flatten

/-- ranges from src/dataset/utility.py: sort the distinct positions,
collect the boundary pairs around every hole, surround them with the
first and last position, and pair the resulting edge list up. -/
def ranges (positions : List Int) : List (Int × Int) :=
  let ps := dedupSort positions
  let edges := ps.take 1 ++ gapsJoin ps ++ ps.drop (ps.length - 1)
  pairUp edges

-- Validation against the commented test case below ranges in the source.
example :
    ranges [11, 12, 13, 14, 15, 16, 17, 18, 22, 23, 24, 25, 40, 41, 42, 43, 67, 68, 69, 70]
      = [(11, 18), (22, 25), (40, 43), (67, 70)] := by decide

/- ------------------------------------------------------------------
Region consolidator: consolidate_regions (utility.py 860-883).
------------------------------------------------------------------ -/

/-- Python str.split with a one-character separator, on character
lists: the separator is dropped and empty fields are kept. -/
def pySplitChar (sep : Char) : List Char → List (List Char)
  | [] => [[]]
  | c :: t =>
    let r := pySplitChar sep t
    if c = sep then [] :: r
    else
      match r with
      | g :: gs => (c :: g) :: gs
      | [] => [[c]]

/-- Python s.split(sep) for a one-character separator. -/
def pySplit (s : String) (sep : Char) : List String :=
  (pySplitChar sep s.data).map String.mk

/-- Parse one "start-end" token of the disorder-region string: split on
the dash and integer-cast the first two fields, as the source writes
int( x.split( "-" )[0] ) and int( x.split( "-" )[1] ). -/
def parseRegionTok (x : String) : Except String (Int × Int) :=
  match pySplit x '-' with
  | p0 :: p1 :: _ =>
    match pyInt? p0, pyInt? p1 with
    | some a, some b => .ok (a, b)
    | _, _ => .error "ValueError"
  | _ => .error "IndexError"

/-- The list comprehension of consolidate_regions: split the string on
commas and parse every token. -/
def parse_regions (s : String) : Except String (List (Int × Int)) :=
  mapExcept parseRegionTok (pySplit s ',')

/-- consolidate_regions from src/dataset/utility.py: parse, merge with
merge_overlapping_tuples, and keep the merged intervals of inclusive
length at least min_len. -/
def consolidate_regions (disorder_regions : String) (min_len : Int) :
    Except String (List (Int × Int)) :=
  match parse_regions disorder_regions with
  | .error e => .error e
  | .ok l =>
    .ok ((merge_overlapping_tuples l).filter (fun x => x.2 - x.1 + 1 ≥ min_len))

/- ------------------------------------------------------------------
Helper lemmas.
------------------------------------------------------------------ -/

lemma mapExcept_ok_length {α β ε : Type} (f : α → Except ε β) (l : List α) (v : List β)
    (h : mapExcept f l = .ok v) : v.length = l.length := by
  induction l generalizing v with
  | nil =>
    unfold mapExcept at h
    cases h
    rfl
  | cons a t ih =>
    unfold mapExcept at h
    cases hfa : f a with
    | error e => rw [hfa] at h; cases h
    | ok b =>
      rw [hfa] at h
      cases hmt : mapExcept f t with
      | error e => rw [hmt] at h; cases h
      | ok bs =>
        rw [hmt] at h
        cases h
        simp [ih bs hmt]

lemma mapExcept_ok_getD {α β ε : Type} (f : α → Except ε β) (l : List α) (v : List β)
    (dl : α) (dv : β) (h : mapExcept f l = .ok v) :
    ∀ i, i < l.length → f (l.getD i dl) = .ok (v.getD i dv) := by
  induction l generalizing v with
  | nil => intro i hi; simp at hi
  | cons a t ih =>
    intro i hi
    unfold mapExcept at h
    cases hfa : f a with
    | error e => rw [hfa] at h; cases h
    | ok b =>
      rw [hfa] at h
      cases hmt : mapExcept f t with
      | error e => rw [hmt] at h; cases h
      | ok bs =>
        rw [hmt] at h
        cases h
        cases i with
        | zero => simpa using hfa
        | succ j =>
          simp only [List.getD_cons_succ]
          exact ih bs hmt j (by simpa using hi)

lemma mapExcept_error_mem {α β ε : Type} (f : α → Except ε β) (l : List α) (e : ε)
    (h : mapExcept f l = .error e) : ∃ a ∈ l, f a = .error e := by
  induction l with
  | nil => unfold mapExcept at h; cases h
  | cons a t ih =>
    unfold mapExcept at h
    cases hfa : f a with
    | error e2 =>
      rw [hfa] at h
      cases h
      exact ⟨a, by simp, hfa⟩
    | ok b =>
      rw [hfa] at h
      cases hmt : mapExcept f t with
      | error e2 =>
        rw [hmt] at h
        cases h
        obtain ⟨a2, ha2, hfa2⟩ := ih hmt
        exact ⟨a2, by simp [ha2], hfa2⟩
      | ok bs => rw [hmt] at h; cases h

lemma mapExcept_ok_of_forall {α β ε : Type} (f : α → Except ε β) (l : List α)
    (h : ∀ a ∈ l, ∃ b, f a = .ok b) : ∃ v, mapExcept f l = .ok v := by
  induction l with
  | nil => exact ⟨[], rfl⟩
  | cons a t ih =>
    obtain ⟨b, hb⟩ := h a (by simp)
    obtain ⟨v, hv⟩ := ih (fun a2 ha2 => h a2 (by simp [ha2]))
    exact ⟨b :: v, by unfold mapExcept; rw [hb, hv]⟩

lemma pyIndex_of_mem {l : List String} {t : String} (h : t ∈ l) :
    ∃ i, pyIndex l t = some i := by
  induction l with
  | nil => cases h
  | cons x tl ih =>
    by_cases hx : x = t
    · exact ⟨0, by simp [pyIndex, hx]⟩
    · have ht : t ∈ tl := by
        cases h with
        | head => exact absurd rfl hx
        | tail _ h2 => exact h2
      obtain ⟨i, hi⟩ := ih ht
      exact ⟨i + 1, by simp [pyIndex, hx, hi]⟩

lemma pyIndex_some {l : List String} {t : String} {i : Nat}
    (h : pyIndex l t = some i) : i < l.length ∧ l[i]? = some t := by
  induction l generalizing i with
  | nil => cases h
  | cons x tl ih =>
    unfold pyIndex at h
    by_cases hx : x = t
    · rw [if_pos hx] at h
      cases h
      simp [hx]
    · rw [if_neg hx] at h
      cases hrec : pyIndex tl t with
      | none => rw [hrec] at h; cases h
      | some j =>
        rw [hrec] at h
        cases h
        obtain ⟨hlt, hget⟩ := ih hrec
        constructor
        · simpa using Nat.succ_lt_succ hlt
        · simpa using hget

lemma pyIndex_getElem {l : List String} (hnd : l.Nodup) {i : Nat} {t : String}
    (h : l[i]? = some t) : pyIndex l t = some i := by
  induction l generalizing i with
  | nil => simp at h
  | cons x tl ih =>
    rw [List.nodup_cons] at hnd
    cases i with
    | zero =>
      simp at h
      simp [pyIndex, h]
    | succ j =>
      simp at h
      have hmem : t ∈ tl := by
        have := List.getElem?_eq_some_iff.mp h
        obtain ⟨hj, hjt⟩ := this
        exact hjt ▸ List.getElem_mem hj
      have hx : x ≠ t := fun he => hnd.1 (he ▸ hmem)
      simp [pyIndex, hx, ih hnd.2 h]

lemma getElem?_of_lt {α : Type} (l : List α) {i : Nat} (h : i < l.length) :
    ∃ v, l[i]? = some v :=
  ⟨l[i], List.getElem?_eq_getElem h⟩

/- ------------------------------------------------------------------
Claim C1: the interval merger loses covered points on inputs that
require a transitive merge past a contained interval; the source test
cases in the comments pass, but the general coverage property fails.
------------------------------------------------------------------ -/

/-- C1: at input [(1,2), (3,10), (9,9)] the merger returns [(1,9)]; the
point 10 is covered by the input union but not by the output union, so
the coverage part of the claim fails on the code (the adjacency branch
resets the running upper bound to max( x[1], y[1] ), discarding the
extension already absorbed from an earlier interval). -/
theorem merge_drops_covered_point :
    merge_overlapping_tuples [(1,2), (3,10), (9,9)] = [(1,9)] ∧
    coversB [(1,2), (3,10), (9,9)] 10 = true ∧
    coversB [(1,9)] 10 = false := by decide

/- ------------------------------------------------------------------
Claim C2: permutation invariance of the interval merger.
------------------------------------------------------------------ -/

/-- C2: merge_overlapping_tuples gives equal outputs on inputs that are
permutations of each other, because its result is a function of the
sorted input alone and sorting by the lexicographic linear order is
canonical on permutation classes. -/
theorem merge_perm_invariant (l₁ l₂ : List (Int × Int)) (h : l₁.Perm l₂) :
    merge_overlapping_tuples l₁ = merge_overlapping_tuples l₂ := by
  have hs : pySort l₁ = pySort l₂ :=
    List.eq_of_perm_of_sorted
      (((List.perm_insertionSort tupLe l₁).trans h).trans
        (List.perm_insertionSort tupLe l₂).symm)
      (List.sorted_insertionSort tupLe l₁)
      (List.sorted_insertionSort tupLe l₂)
  unfold merge_overlapping_tuples
  rw [hs]

/-- Witness for C2 at a concrete transposed pair. -/
theorem merge_perm_invariant_witness :
    merge_overlapping_tuples [(1,2), (5,6)] = merge_overlapping_tuples [(5,6), (1,2)] :=
  merge_perm_invariant [(1,2), (5,6)] [(5,6), (1,2)] (List.Perm.swap (5,6) (1,2) [])

/- ------------------------------------------------------------------
Claim C5: the region consolidator.
------------------------------------------------------------------ -/

/-- C5: consolidate_regions parses the comma separated dash intervals,
merges them with merge_overlapping_tuples, and keeps exactly the merged
intervals of inclusive length at least min_len; on "1-2,5-10,8-25" with
threshold 5 the result is [(5,25)]. -/
theorem consolidate_regions_spec :
    (∀ (s : String) (m : Int) (l : List (Int × Int)), parse_regions s = .ok l →
      consolidate_regions s m =
        .ok ((merge_overlapping_tuples l).filter (fun x => x.2 - x.1 + 1 ≥ m))) ∧
    consolidate_regions "1-2,5-10,8-25" 5 = .ok [(5, 25)] := by
  constructor
  · intro s m l h
    unfold consolidate_regions
    rw [h]
  · decide

/-- Witness for C5 applying the parse hypothesis at a concrete string. -/
theorem consolidate_regions_spec_witness :
    consolidate_regions "1-3" 1 = .ok [(1, 3)] := by
  rw [consolidate_regions_spec.1 "1-3" 1 [(1, 3)] (by decide)]
  decide

/- ------------------------------------------------------------------
Claims C7 and C8: add_residue_positions.
------------------------------------------------------------------ -/

lemma arp_foldl_length (target : List Scalar) (b : Bool) :
    ∀ (q : List Int) (acc : List Scalar),
      (q.foldl (fun acc pos =>
        let add := if b then Scalar.str "null" else Scalar.int pos
        if (Scalar.int pos) ∈ target then acc ++ [Scalar.int pos]
        else acc ++ [add]) acc).length = acc.length + q.length := by
  intro q
  induction q with
  | nil => intro acc; simp
  | cons p t ih =>
    intro acc
    simp only [List.foldl_cons]
    by_cases h : (Scalar.int p) ∈ target
    · rw [if_pos h, ih]
      simp
      omega
    · rw [if_neg h, ih]
      simp
      omega

/-- C7: add_residue_positions always returns one output element per
query element, so the excessive-residues error branch is unreachable and
the output keeps 1:1 positional correspondence with the query stream. -/
theorem add_residue_positions_total (q : List Int) (t : List Scalar) (b : Bool) :
    ∃ out, add_residue_positions q t b = .ok out ∧ out.length = q.length := by
  unfold add_residue_positions
  have hlen := arp_foldl_length t b q []
  simp only [List.length_nil, Nat.zero_add] at hlen
  refine ⟨_, ?_, hlen⟩
  rw [if_neg (by simp [hlen])]

/-- C8 counterexample: with the eight element query 11..18 of the claim
the output has eight elements, not the nine element list the claim
names. -/
theorem add_residue_positions_example_cex :
    add_residue_positions [11, 12, 13, 14, 15, 16, 17, 18]
      [.int 14, .int 15, .int 16, .int 17, .int 18] true ≠
    .ok [.str "null", .str "null", .str "null", .int 14, .int 15, .int 16,
      .int 17, .int 18, .str "null"] := by decide

/-- C8 amended: with the query 11..19 (the np.arange( 11, 20 ) of the
source test), the output is the nine element list of the claim. -/
theorem add_residue_positions_example :
    add_residue_positions [11, 12, 13, 14, 15, 16, 17, 18, 19]
      [.int 14, .int 15, .int 16, .int 17, .int 18] true =
    .ok [.str "null", .str "null", .str "null", .int 14, .int 15, .int 16,
      .int 17, .int 18, .str "null"] := by decide

/- ------------------------------------------------------------------
Claims C9 and C10: change_basis2.
------------------------------------------------------------------ -/

lemma mapExcept_idx_ok (m : List String) (indices : List Nat) (out : List String)
    (h : mapExcept (idx_step m) indices = .ok out) :
    out = indices.map (fun i => m.getD i "") := by
  induction indices generalizing out with
  | nil => unfold mapExcept at h; cases h; rfl
  | cons i t ih =>
    unfold mapExcept at h
    cases hfi : idx_step m i with
    | error e => rw [hfi] at h; cases h
    | ok b =>
      rw [hfi] at h
      cases hmt : mapExcept (idx_step m) t with
      | error e => rw [hmt] at h; cases h
      | ok bs =>
        rw [hmt] at h
        cases h
        have hb : b = m.getD i "" := by
          unfold idx_step at hfi
          cases hmi : m[i]? with
          | some v =>
            rw [hmi] at hfi
            cases hfi
            simp [List.getD_eq_getElem?_getD, hmi]
          | none => rw [hmi] at hfi; cases hfi
        rw [hb, ih bs hmt]
        simp

/-- C9 counterexample: with marker add = "x" a NaN target element
normalizes to "x", the literal-"null" check does not fire, and a result
is returned instead of the fatal invalid-position error; moreover with
no marker left but an out-of-range index, no result is returned. -/
theorem change_basis2_marker_cex :
    change_basis2 [Scalar.int 1] [Scalar.nan] [0] "x" = .ok ["1"] ∧
    change_basis2 [Scalar.int 1] [Scalar.int 2] [5] "null" = .error .indexErr := by
  decide

/-- C9 amended: change_basis2 raises the invalid-position error exactly
when the normalized target contains the literal "null" (the code checks
the literal, not the caller marker add); when it does not, that error is
never raised, and if every index is within the mapping a result is
returned. -/
theorem change_basis2_null_check (mapping tp : List Scalar) (indices : List Nat)
    (add : String) :
    (change_basis2 mapping tp indices add = .error .invalidPos ↔
      "null" ∈ convert_to_str tp add) ∧
    ("null" ∉ convert_to_str tp add → (∀ i ∈ indices, i < mapping.length) →
      ∃ out, change_basis2 mapping tp indices add = .ok out) := by
  constructor
  · constructor
    · intro h
      by_contra hmem
      unfold change_basis2 at h
      rw [if_neg hmem] at h
      obtain ⟨a, _, hfa⟩ := mapExcept_error_mem _ _ _ h
      unfold idx_step at hfa
      cases hma : (convert_to_str mapping "null")[a]? with
      | some v => rw [hma] at hfa; cases hfa
      | none => rw [hma] at hfa; simp at hfa
    · intro hmem
      unfold change_basis2
      rw [if_pos hmem]
  · intro hmem hrange
    unfold change_basis2
    rw [if_neg hmem]
    apply mapExcept_ok_of_forall
    intro i hi
    obtain ⟨v, hv⟩ := getElem?_of_lt (convert_to_str mapping "null")
      (by simpa [convert_to_str] using hrange i hi)
    exact ⟨v, by unfold idx_step; rw [hv]⟩

/-- Witness for C9 at a concrete in-range call. -/
theorem change_basis2_null_check_witness :
    ∃ out, change_basis2 [Scalar.int 4] [Scalar.int 9] [0] "null" = .ok out :=
  (change_basis2_null_check [Scalar.int 4] [Scalar.int 9] [0] "null").2
    (by decide) (by decide)

/-- C10: whenever change_basis2 returns normally, the output is the
normalized mapping read at each index in order, hence has the length of
the index list and does not depend on the target beyond the marker
check: any target passing the check yields the same output. -/
theorem change_basis2_shape (mapping tp : List Scalar) (indices : List Nat)
    (add : String) (out : List String)
    (h : change_basis2 mapping tp indices add = .ok out) :
    out = indices.map (fun i => (convert_to_str mapping "null").getD i "") ∧
    out.length = indices.length ∧
    ∀ tp2 : List Scalar, "null" ∉ convert_to_str tp2 add →
      change_basis2 mapping tp2 indices add = .ok out := by
  unfold change_basis2 at h
  by_cases hmem : "null" ∈ convert_to_str tp add
  · rw [if_pos hmem] at h; cases h
  · rw [if_neg hmem] at h
    have hmap := mapExcept_idx_ok _ _ _ h
    refine ⟨hmap, ?_, ?_⟩
    · rw [hmap]; simp
    · intro tp2 hmem2
      unfold change_basis2
      rw [if_neg hmem2]
      exact h

/-- Witness for C10 at a concrete normal return. -/
theorem change_basis2_shape_witness :
    (["6", "5"] : List String) = ([1, 0] : List Nat).map
      (fun i => (convert_to_str [Scalar.int 5, Scalar.int 6] "null").getD i "") :=
  (change_basis2_shape [Scalar.int 5, Scalar.int 6] [Scalar.int 7] [1, 0] "null"
    ["6", "5"] (by decide)).1

/- ------------------------------------------------------------------
Claim C4: gap propagation in change_basis.
------------------------------------------------------------------ -/

/-- C4 counterexample: with caller marker add = "x", a NaN target
element normalizes to the marker "x", but the code compares against the
literal "null", fails the lookup of "x" in the mapping and raises, so no
output with the marker at that index exists. -/
theorem change_basis_gap_cex :
    change_basis [Scalar.int 1] [Scalar.int 2] [Scalar.nan] "x" true =
      .error "ValueError" := by decide

/-- C4 amended: gap propagation holds for the literal marker "null" (the
value the code compares against, which only arises with the default add
= "null"): whenever change_basis returns normally its output has the
length and order of the target, and every target element normalizing to
"null" produces "null" at the same output index, in either direction. -/
theorem change_basis_gap_prop (mu mp tp : List Scalar) (add : String) (fwd : Bool)
    (out : List String) (h : change_basis mu mp tp add fwd = .ok out) :
    out.length = tp.length ∧
    ∀ i, i < tp.length → (convert_to_str tp add).getD i "" = "null" →
      out.getD i "" = "null" := by
  unfold change_basis at h
  constructor
  · rw [mapExcept_ok_length _ _ _ h]
    simp [convert_to_str]
  · intro i hi hnull
    have hlen : i < (convert_to_str tp add).length := by
      simpa [convert_to_str] using hi
    have hstep := mapExcept_ok_getD _ _ _ "" "" h i hlen
    rw [hnull] at hstep
    unfold cb_step at hstep
    rw [if_pos rfl] at hstep
    exact (Except.ok.inj hstep).symm

/-- Witness for C4 at a concrete mapping with one gap. -/
theorem change_basis_gap_witness :
    (["null", "7"] : List String).getD 0 "" = "null" :=
  (change_basis_gap_prop [.int 7] [.int 3] [.nan, .int 3] "null" true
    ["null", "7"] (by decide)).2 0 (by decide) (by decide)

/- ------------------------------------------------------------------
Claim C3: change_basis round trip.
------------------------------------------------------------------ -/

lemma round_trip_core (uni pdb : List String)
    (h1 : ∀ t ∈ uni, t ≠ "null" ∧ pyNumCast t = t)
    (h2 : ∀ t ∈ pdb, t ≠ "null")
    (h3 : uni.length = pdb.length)
    (h4 : uni.Nodup) :
    ∀ ts : List String, (∀ t ∈ ts, t ∈ pdb) →
      ∃ out1, mapExcept (cb_step uni pdb true) ts = .ok out1 ∧
        mapExcept (cb_step uni pdb false)
          (convert_to_str (out1.map Scalar.str) "null") = .ok ts := by
  intro ts
  induction ts with
  | nil =>
    intro _
    exact ⟨[], rfl, rfl⟩
  | cons t ts ih =>
    intro hmem
    have htp : t ∈ pdb := hmem t (by simp)
    have htn : t ≠ "null" := h2 t htp
    obtain ⟨i, hpi⟩ := pyIndex_of_mem htp
    obtain ⟨hilt, hpget⟩ := pyIndex_some hpi
    obtain ⟨u, hui⟩ := getElem?_of_lt uni (i := i) (by omega)
    have humem : u ∈ uni := by
      obtain ⟨hlt, heq⟩ := List.getElem?_eq_some_iff.mp hui
      exact heq ▸ List.getElem_mem hlt
    obtain ⟨hun, huc⟩ := h1 u humem
    have hfw : cb_step uni pdb true t = .ok u := by
      unfold cb_step
      rw [if_neg htn, if_neg (by simp)]
      simp only [hpi, hui]
    have hconv : convert_elem "null" (Scalar.str u) = u := by
      show (if u = "null" then "null" else pyNumCast u) = u
      rw [if_neg hun, huc]
    have hrv : cb_step uni pdb false u = .ok t := by
      unfold cb_step
      rw [if_neg hun, if_pos rfl]
      simp only [pyIndex_getElem h4 hui, hpget]
    obtain ⟨o, ho1, ho2⟩ := ih (fun x hx => hmem x (by simp [hx]))
    refine ⟨u :: o, ?_, ?_⟩
    · unfold mapExcept
      rw [hfw, ho1]
    · have : convert_to_str ((u :: o).map Scalar.str) "null" =
          u :: convert_to_str (o.map Scalar.str) "null" := by
        simp only [List.map_cons, convert_to_str, hconv]
      rw [this]
      unfold mapExcept
      rw [hrv, ho2]

/-- C3 counterexample: two mappings with no missing values on which the
round trip fails as stated.  First, duplicated UniProt positions: the
reverse lookup finds the first duplicate and returns the wrong PDB
position.  Second, a mapping token produced by digit-stripping
("0x10" gives "010") is not fixed by re-normalization, so the reverse
call cannot find it and raises. -/
theorem change_basis_round_trip_cex :
    (change_basis [Scalar.int 5, Scalar.int 5] [Scalar.int 1, Scalar.int 2]
      [Scalar.int 2] "null" true = .ok ["5"] ∧
     change_basis [Scalar.int 5, Scalar.int 5] [Scalar.int 1, Scalar.int 2]
      [Scalar.str "5"] "null" false = .ok ["1"] ∧
     (["1"] : List String) ≠ convert_to_str [Scalar.int 2] "null") ∧
    (change_basis [Scalar.str "0x10"] [Scalar.int 1] [Scalar.int 1] "null" true
        = .ok ["010"] ∧
     change_basis [Scalar.str "0x10"] [Scalar.int 1] [Scalar.str "010"] "null" false
        = .error "ValueError") := by decide

/-- C3 amended: the round trip holds for parallel equal-length mappings
whose UniProt-side tokens are pairwise distinct, are not the missing
marker, and are canonical integer tokens (fixed points of the numeric
re-normalization, as every token of a well-formed all-integer mapping
is), whose PDB-side tokens are not the missing marker, and for any
target X whose normalized tokens are all present in the normalized
PDB stream: converting forward and feeding the result back with forward
= False returns exactly the normalized X. -/
theorem change_basis_round_trip (mu mp X : List Scalar)
    (h1 : ∀ t ∈ convert_to_str mu "null", t ≠ "null" ∧ pyNumCast t = t)
    (h2 : ∀ t ∈ convert_to_str mp "null", t ≠ "null")
    (h3 : mu.length = mp.length)
    (h4 : (convert_to_str mu "null").Nodup)
    (h5 : ∀ t ∈ convert_to_str X "null", t ∈ convert_to_str mp "null") :
    ∃ out1, change_basis mu mp X "null" true = .ok out1 ∧
      change_basis mu mp (out1.map Scalar.str) "null" false =
        .ok (convert_to_str X "null") := by
  have h3t : (convert_to_str mu "null").length = (convert_to_str mp "null").length := by
    simp [convert_to_str, h3]
  obtain ⟨out1, hf, hr⟩ :=
    round_trip_core (convert_to_str mu "null") (convert_to_str mp "null")
      h1 h2 h3t h4 (convert_to_str X "null") h5
  exact ⟨out1, hf, hr⟩

/-- Witness for C3 at a concrete two-residue mapping. -/
theorem change_basis_round_trip_witness :
    ∃ out1, change_basis [Scalar.int 35, Scalar.int 36] [Scalar.int 11, Scalar.int 12]
      [Scalar.int 12] "null" true = .ok out1 ∧
      change_basis [Scalar.int 35, Scalar.int 36] [Scalar.int 11, Scalar.int 12]
        (out1.map Scalar.str) "null" false =
        .ok (convert_to_str [Scalar.int 12] "null") :=
  change_basis_round_trip [Scalar.int 35, Scalar.int 36]
    [Scalar.int 11, Scalar.int 12] [Scalar.int 12]
    (by decide) (by decide) (by decide) (by decide) (by decide)

/- ------------------------------------------------------------------
Claim C6: correctness of ranges.  The zip construction is first related
to a direct recursion runsAux over the sorted distinct positions, whose
properties then follow by induction.
------------------------------------------------------------------ -/

/-- Reference recursion for the edge pairing of ranges: s is the start
of the run being built, c its current end, and the remaining sorted
positions either extend the run or close it and start a new one. -/
def runsAux (s c : Int) : List Int → List (Int × Int)
  | [] => [(s, c)]
  | y :: t => if c + 1 < y then (s, c) :: runsAux y y t else runsAux s y t

/-- Runs of a sorted distinct position list. -/
def runs : List Int → List (Int × Int)
  | [] => []
  | x :: t => runsAux x x t

lemma gapsJoin_cons₂ (c y : Int) (t : List Int) :
    gapsJoin (c :: y :: t) =
      (if c + 1 < y then [c, y] else []) ++ gapsJoin (y :: t) := by
  by_cases h : c + 1 < y <;>
    simp [gapsJoin, List.filter_cons, h]

lemma drop_last_cons₂ (c y : Int) (t : List Int) :
    (c :: y :: t).drop ((c :: y :: t).length - 1) =
      (y :: t).drop ((y :: t).length - 1) := by
  show (c :: y :: t).drop (t.length + 1) = (y :: t).drop t.length
  rw [List.drop_succ_cons]

lemma pairUp_edges (t : List Int) : ∀ s c : Int,
    pairUp (s :: (gapsJoin (c :: t) ++ (c :: t).drop ((c :: t).length - 1))) =
      runsAux s c t := by
  induction t with
  | nil => intro s c; rfl
  | cons y t ih =>
    intro s c
    rw [gapsJoin_cons₂, drop_last_cons₂]
    by_cases h : c + 1 < y
    · rw [if_pos h]
      show pairUp (s :: c :: y ::
        (gapsJoin (y :: t) ++ (y :: t).drop ((y :: t).length - 1))) =
        runsAux s c (y :: t)
      show (s, c) :: pairUp (y ::
        (gapsJoin (y :: t) ++ (y :: t).drop ((y :: t).length - 1))) =
        runsAux s c (y :: t)
      rw [ih y y]
      simp [runsAux, h]
    · rw [if_neg h]
      show pairUp (s ::
        (gapsJoin (y :: t) ++ (y :: t).drop ((y :: t).length - 1))) =
        runsAux s c (y :: t)
      rw [ih s y]
      simp [runsAux, h]

lemma ranges_eq_runs (l : List Int) : ranges l = runs (dedupSort l) := by
  unfold ranges
  cases hd : dedupSort l with
  | nil => rfl
  | cons x t =>
    show pairUp ((x :: t).take 1 ++ (gapsJoin (x :: t) ++
      (x :: t).drop ((x :: t).length - 1))) = runsAux x x t
    show pairUp (x :: (gapsJoin (x :: t) ++
      (x :: t).drop ((x :: t).length - 1))) = runsAux x x t
    exact pairUp_edges t x x

lemma dedupSort_chain (l : List Int) :
    List.Chain' (fun a b : Int => a < b) (dedupSort l) := by
  have hsd : (dedupSort l).Pairwise (fun a b : Int => a ≤ b) :=
    (List.sorted_insertionSort (fun a b : Int => a ≤ b) l).sublist
      (List.dedup_sublist _)
  have hnd : (dedupSort l).Pairwise (fun a b : Int => a ≠ b) :=
    List.nodup_dedup _
  exact ((hsd.and hnd).imp (fun h => lt_of_le_of_ne h.1 h.2)).chain'

lemma dedupSort_mem (l : List Int) (n : Int) : n ∈ dedupSort l ↔ n ∈ l := by
  unfold dedupSort
  rw [List.mem_dedup]
  exact (List.perm_insertionSort _ l).mem_iff

lemma runsAux_bounds (t : List Int) : ∀ s c : Int,
    List.Chain' (fun a b : Int => a < b) (c :: t) → s ≤ c →
    List.Pairwise (fun p q : Int × Int => p.2 + 1 < q.1) (runsAux s c t) ∧
    ∀ p ∈ runsAux s c t, s ≤ p.1 ∧ p.1 ≤ p.2 := by
  induction t with
  | nil =>
    intro s c _ hsc
    refine ⟨by simp [runsAux], ?_⟩
    intro p hp
    simp only [runsAux, List.mem_singleton] at hp
    subst hp
    exact ⟨le_refl s, hsc⟩
  | cons y t ih =>
    intro s c hch hsc
    obtain ⟨hcy, hch2⟩ := List.chain'_cons.mp hch
    by_cases h : c + 1 < y
    · obtain ⟨hpw, hbd⟩ := ih y y hch2 (le_refl y)
      constructor
      · simp only [runsAux, if_pos h]
        refine List.pairwise_cons.mpr ⟨?_, hpw⟩
        intro q hq
        have := (hbd q hq).1
        simp only
        omega
      · simp only [runsAux, if_pos h]
        intro p hp
        rcases List.mem_cons.mp hp with hp1 | hp2
        · subst hp1; exact ⟨le_refl s, hsc⟩
        · have h2 := hbd p hp2
          constructor
          · omega
          · exact h2.2
    · have res := ih s y hch2 (by omega)
      simpa only [runsAux, if_neg h] using res

lemma runsAux_cover (t : List Int) : ∀ s c : Int,
    List.Chain' (fun a b : Int => a < b) (c :: t) → s ≤ c →
    ∀ n : Int, (∃ p ∈ runsAux s c t, p.1 ≤ n ∧ n ≤ p.2) ↔
      ((s ≤ n ∧ n ≤ c) ∨ n ∈ t) := by
  induction t with
  | nil =>
    intro s c _ _ n
    simp [runsAux]
  | cons y t ih =>
    intro s c hch hsc n
    obtain ⟨hcy, hch2⟩ := List.chain'_cons.mp hch
    by_cases h : c + 1 < y
    · simp only [runsAux, if_pos h]
      constructor
      · rintro ⟨p, hp, hle, hge⟩
        rcases List.mem_cons.mp hp with hp1 | hp2
        · subst hp1; exact Or.inl ⟨hle, hge⟩
        · have := (ih y y hch2 (le_refl y) n).mp ⟨p, hp2, hle, hge⟩
          rcases this with ⟨h1, h2⟩ | h3
          · exact Or.inr (by simp; omega)
          · exact Or.inr (by simp [h3])
      · rintro (⟨h1, h2⟩ | hmem)
        · exact ⟨(s, c), by simp, h1, h2⟩
        · rcases List.mem_cons.mp hmem with h1 | h2
          · obtain ⟨p, hp, hc1, hc2⟩ :=
              (ih y y hch2 (le_refl y) n).mpr (Or.inl (by omega))
            exact ⟨p, by simp [hp], hc1, hc2⟩
          · obtain ⟨p, hp, hc1, hc2⟩ :=
              (ih y y hch2 (le_refl y) n).mpr (Or.inr h2)
            exact ⟨p, by simp [hp], hc1, hc2⟩
    · have hy : y = c + 1 := by omega
      simp only [runsAux, if_neg h]
      rw [ih s y hch2 (by omega) n]
      constructor
      · rintro (⟨h1, h2⟩ | hmem)
        · by_cases hn : n ≤ c
          · exact Or.inl ⟨h1, hn⟩
          · exact Or.inr (by simp; left; omega)
        · exact Or.inr (by simp [hmem])
      · rintro (⟨h1, h2⟩ | hmem)
        · exact Or.inl ⟨h1, by omega⟩
        · rcases List.mem_cons.mp hmem with h1 | h2
          · exact Or.inl ⟨by omega, by omega⟩
          · exact Or.inr h2

lemma pairwise_two {l : List (Int × Int)}
    (h : l.Pairwise (fun p q : Int × Int => p.2 + 1 < q.1))
    {p q : Int × Int} (hp : p ∈ l) (hq : q ∈ l) :
    p = q ∨ p.2 + 1 < q.1 ∨ q.2 + 1 < p.1 := by
  by_cases he : p = q
  · exact Or.inl he
  · have hsym : Symmetric (fun p q : Int × Int => p.2 + 1 < q.1 ∨ q.2 + 1 < p.1) := by
      intro a b hab
      tauto
    have h2 : l.Pairwise (fun p q : Int × Int => p.2 + 1 < q.1 ∨ q.2 + 1 < p.1) :=
      h.imp (fun hr => Or.inl hr)
    exact Or.inr (h2.forall hsym hp hq he)

/-- C6: ranges returns a list of intervals, sorted with a gap of more
than one between consecutive intervals, each interval nonempty and
maximal: all its integer points occur in the input while the points just
outside it do not, every input point is covered, and the example of the
claim evaluates as stated. -/
theorem ranges_spec (l : List Int) :
    List.Pairwise (fun p q : Int × Int => p.2 + 1 < q.1) (ranges l) ∧
    (∀ p ∈ ranges l, p.1 ≤ p.2 ∧ (∀ n : Int, p.1 ≤ n → n ≤ p.2 → n ∈ l) ∧
      p.1 - 1 ∉ l ∧ p.2 + 1 ∉ l) ∧
    (∀ n : Int, n ∈ l ↔ ∃ p ∈ ranges l, p.1 ≤ n ∧ n ≤ p.2) ∧
    ranges [11, 12, 13, 14, 15, 16, 17, 18, 22, 23, 24, 25,
      40, 41, 42, 43, 67, 68, 69, 70] =
      [(11, 18), (22, 25), (40, 43), (67, 70)] := by
  have hchain := dedupSort_chain l
  have hmemiff := dedupSort_mem l
  rw [ranges_eq_runs l]
  cases hd : dedupSort l with
  | nil =>
    rw [hd] at hmemiff
    refine ⟨by simp [runs], by simp [runs], ?_, by decide⟩
    intro n
    constructor
    · intro hn
      exact absurd ((hmemiff n).mpr hn) (List.not_mem_nil n)
    · rintro ⟨p, hp, _⟩
      simp [runs] at hp
  | cons x t =>
    rw [hd] at hchain hmemiff
    have hcover := runsAux_cover t x x hchain (le_refl x)
    have hbounds := runsAux_bounds t x x hchain (le_refl x)
    have hcover2 : ∀ n : Int, n ∈ l ↔ ∃ p ∈ runs (x :: t), p.1 ≤ n ∧ n ≤ p.2 := by
      intro n
      rw [← hmemiff n]
      show n ∈ x :: t ↔ ∃ p ∈ runsAux x x t, p.1 ≤ n ∧ n ≤ p.2
      rw [hcover n]
      constructor
      · intro hn
        rcases List.mem_cons.mp hn with h1 | h2
        · exact Or.inl ⟨by omega, by omega⟩
        · exact Or.inr h2
      · rintro (⟨h1, h2⟩ | hmem)
        · exact List.mem_cons.mpr (Or.inl (by omega))
        · exact List.mem_cons.mpr (Or.inr hmem)
    refine ⟨hbounds.1, ?_, hcover2, by decide⟩
    intro p hp
    have hpb := hbounds.2 p hp
    refine ⟨hpb.2, ?_, ?_, ?_⟩
    · intro n h1 h2
      exact (hcover2 n).mpr ⟨p, hp, h1, h2⟩
    · intro hmem
      obtain ⟨q, hq, hq1, hq2⟩ := (hcover2 (p.1 - 1)).mp hmem
      have hqb := hbounds.2 q hq
      rcases pairwise_two hbounds.1 hp hq with he | hlt | hgt
      · subst he; omega
      · omega
      · omega
    · intro hmem
      obtain ⟨q, hq, hq1, hq2⟩ := (hcover2 (p.2 + 1)).mp hmem
      have hqb := hbounds.2 q hq
      rcases pairwise_two hbounds.1 hp hq with he | hlt | hgt
      · subst he; omega
      · omega
      · omega

/-- Witness for C6: the coverage direction applied at a concrete list
and point. -/
theorem ranges_spec_witness :
    ∃ p ∈ ranges [4, 5, 6], p.1 ≤ 5 ∧ 5 ≤ p.2 :=
  ((ranges_spec [4, 5, 6]).2.2.1 5).mp (by decide)

end Disobind
